import Mathlib

/-!
Verification development for the message-response decision pipeline of the
tinder_bot repository.  The Python sources `personality.py`,
`utils/data_manager.py` and `core/message_handler.py` are shallowly embedded
as executable Lean definitions; file I/O, logging and sleeping are elided,
and the completion backend, the message sink and the random source are
passed in as explicit parameters.
-/

/-- Python `str.split()` whitespace set (ASCII part, as used by `' '.join(text.split())`
and `str.strip()` in `personality.py`). -/
def pyIsSpace (c : Char) : Bool :=
  c = ' ' || c = '\t' || c = '\n' || c = '\x0d' || c = '\x0b' || c = '\x0c'

/-- Drop leading whitespace (left half of Python `str.strip()`). -/
def trimLeft (l : List Char) : List Char := l.dropWhile pyIsSpace

/-- Drop trailing whitespace (right half of Python `str.strip()`). -/
def trimRight (l : List Char) : List Char := (l.reverse.dropWhile pyIsSpace).reverse

/-- Python `str.strip()` on a character list. -/
def pyStrip (l : List Char) : List Char := trimRight (trimLeft l)

/-- Python `str.strip()` on a string (used on the raw completion text). -/
def strTrim (s : String) : String := String.mk (pyStrip s.data)

/-- Substring test: `containsSub pat l = true` iff `pat` occurs contiguously in `l`.
Embeds Python `pat in s` (and `re.search` for the literal refusal patterns). -/
def containsSub (pat : List Char) : List Char → Bool
  | [] => pat.isEmpty
  | c :: rest => pat.isPrefixOf (c :: rest) || containsSub pat rest

/-- Python `pat in s` for strings. -/
def strContains (s pat : String) : Bool := containsSub pat.data s.data

/-- Python `str.lower()` (ASCII case folding, which covers every pattern used). -/
def strLower (s : String) : String := String.mk (s.data.map Char.toLower)

/-- `MessageGenerator.refusal_patterns` from `personality.py`.  Every pattern is a
regex-metacharacter-free literal, so `re.search` is substring containment. -/
def refusal_patterns : List String :=
  ["i do not feel comfortable",
   "i\x27m sorry",
   "unable to",
   "cannot continue",
   "i do not actually have the ability",
   "i should have been more direct",
   "i do not engage in roleplay",
   "i\x27m not actually a real person",
   "i cannot send real messages",
   "i cannot make real phone calls",
   "i am an ai program",
   "as an ai",
   "language model"]

/-- `MessageGenerator._is_refusal`: any refusal pattern occurs in the lowered text. -/
def is_refusal (text : String) : Bool :=
  refusal_patterns.any (fun p => strContains (strLower text) p)

/-- One step of `re.sub(r'\x2a[^\x2a]+\x2a', '', text)`: given the list following an
opening asterisk, try to consume a nonempty run of non-asterisk characters and a
closing asterisk, returning the remainder on success. -/
def spanSplit (l : List Char) : Option (List Char) :=
  if l.takeWhile (fun c => c ≠ '*') = [] then none
  else
    match l.dropWhile (fun c => c ≠ '*') with
    | _ :: rest => some rest
    | [] => none

/-- Fueled worker for `re.sub(r'\x2a[^\x2a]+\x2a', '', text)`: leftmost,
non-overlapping removal of asterisk-delimited spans.  The fuel only serves to
make the recursion structural; `l.length` fuel always suffices. -/
def stripActionsF : Nat → List Char → List Char
  | 0, l => l
  | _ + 1, [] => []
  | fuel + 1, c :: rest =>
    if c = '*' then
      match spanSplit rest with
      | some rest2 => stripActionsF fuel rest2
      | none => c :: stripActionsF fuel rest
    else c :: stripActionsF fuel rest

/-- `re.sub(r'\x2a[^\x2a]+\x2a', '', text)` from `_sanitize_reply`. -/
def stripActions (l : List Char) : List Char := stripActionsF l.length l

/-- Accumulator version of Python `str.split()`: maximal runs of non-whitespace. -/
def splitWordsAux : List Char → List Char → List (List Char)
  | [], acc => if acc = [] then [] else [acc.reverse]
  | c :: rest, acc =>
    if pyIsSpace c then
      if acc = [] then splitWordsAux rest [] else acc.reverse :: splitWordsAux rest []
    else splitWordsAux rest (c :: acc)

/-- Python `text.split()`. -/
def splitWords (l : List Char) : List (List Char) := splitWordsAux l []

/-- Python `' '.join(words)`. -/
def joinSpace : List (List Char) → List Char
  | [] => []
  | [w] => w
  | w :: ws => w ++ ' ' :: joinSpace ws

/-- `if text and not text[-1] in '.!?': text += '.'` from `_sanitize_reply`. -/
def ensurePunct (l : List Char) : List Char :=
  match l.getLast? with
  | none => l
  | some c => if c = '.' ∨ c = '!' ∨ c = '?' then l else l ++ ['.']

/-- `MessageGenerator._sanitize_reply`: strip asterisk spans, collapse whitespace
runs via split/join, append terminal punctuation, final `strip()`. -/
def sanitize_reply (s : String) : String :=
  String.mk (pyStrip (ensurePunct (joinSpace (splitWords (stripActions s.data)))))


/-- Fueled worker for Python `str.replace` (all non-overlapping occurrences,
left to right; only used with nonempty patterns).  Fuel `l.length` suffices. -/
def replaceSubF (pat rep : List Char) : Nat → List Char → List Char
  | 0, l => l
  | _ + 1, [] => []
  | fuel + 1, c :: rest =>
    if pat ≠ [] ∧ pat.isPrefixOf (c :: rest) then
      rep ++ replaceSubF pat rep fuel (rest.drop (pat.length - 1))
    else c :: replaceSubF pat rep fuel rest

/-- Python `str.replace(pat, rep)` on character lists. -/
def replaceSub (pat rep l : List Char) : List Char := replaceSubF pat rep l.length l

/-- `_render_time_aware_prompt`: substitute the current date and time into the
template.  `str.format` is modelled by two placeholder replacements, which
agrees with it on the repository templates (whose only fields are
`{current_date}` and `{current_time}`). -/
def renderPrompt (template date time : String) : String :=
  String.mk (replaceSub "{current_time}".data time.data
    (replaceSub "{current_date}".data date.data template.data))

/-- The `system_prompt` of `PERSONALITIES["default"]` in `config.py`. -/
def joshTemplate : String :=
  "Your name is Josh. You\x27re 34, confident, British, 5\x2710, seductive, and you\x27re responding on Tinder.
You\x27re an expert pickup artist who utilizes PUA methods like push-pull. You live in Grimsby, you\x27re flirty and funny with chill energy.
Your snapchat is Fruityfrogs and your whatsapp is +447879906540 - only share when the conversation is going well.
You drive a blue modified 2005 Subaru Impreza WRX, enjoy food (especially Italian), and go to the gym 3x/week.
You\x27re a software developer who loves technology. You have a foot fetish (soles) and love seeing photos of them.
Keep replies short (1-2 sentences max), sexy, human, and confident. Use British slang occasionally.
NEVER mention being AI or bot. No asterisk actions like *smiles*. Stay in character always.
Current time: {current_time} on {current_date}."

/-- The keys of `PERSONALITIES` in `config.py`. -/
def personalityNames : List String :=
  ["default", "flirty", "funny", "gentle", "dominant", "casual"]

/-- `PERSONALITIES[p].get("system_prompt", PERSONALITIES[p])` combined with the
dict branch of `_render_time_aware_prompt`: only the default profile carries a
`system_prompt`; the modifier-only profiles fall through to the dict, whose
`.get("system_prompt", "")` yields the empty template. -/
def systemPromptTemplate (p : String) : String :=
  if p = "default" then joshTemplate else ""

/-- `PERSONALITIES.get(personality, PERSONALITIES["default"])`. -/
def resolvedTemplate (personality : String) : String :=
  if personalityNames.contains personality then systemPromptTemplate personality
  else systemPromptTemplate "default"

/-- One chat turn as passed around `personality.py` and
`core/message_handler.py` (a dict with `role`, `content`, `timestamp`; the
synthesized turns of `_build_messages` carry no timestamp, modelled as ""). -/
structure Msg where
  role : String
  content : String
  timestamp : String
deriving DecidableEq

/-- The media keyword vocabulary of `_build_messages`. -/
def mediaWords : List String := ["gif", "image", "photo", "picture", "selfie"]

/-- `any(word in messages[-1].get("content", "").lower() for word in [...])`. -/
def hasMediaWord (content : String) : Bool :=
  mediaWords.any (fun w => strContains (strLower content) w)

/-- The synthesized opener prompt of `_build_messages`. -/
def openerContent (name bio : String) : String :=
  "You matched with " ++ name ++ ". " ++
    (if bio ≠ "" then "Their bio says: " ++ bio else "No bio provided.") ++ ". " ++
    "Write a flirty, engaging opening message that will get a response."

/-- The opener turn appended by `_build_messages` for short histories. -/
def openerMsg (name bio : String) : Msg := ⟨"user", openerContent name bio, ""⟩

/-- The media-reaction instruction appended by `_build_messages`. -/
def mediaMsg (name : String) : Msg :=
  ⟨"user", name ++ " just sent a photo/GIF. Respond flirtatiously about it.", ""⟩

/-- `MessageGenerator._build_messages`: truncate the history to the last 10
turns, synthesize an opener when the result has at most 2 turns
(`if not messages or len(messages) <= 2`), then append the media instruction
when the final element of the list mentions visual media. -/
def build_messages (name bio : String) (chat_history : List Msg) : List Msg :=
  let messages := chat_history.drop (chat_history.length - 10)
  let messages2 :=
    if messages.length ≤ 2 then messages ++ [openerMsg name bio] else messages
  match messages2.getLast? with
  | none => messages2
  | some lastMsg =>
    if hasMediaWord lastMsg.content then messages2 ++ [mediaMsg name] else messages2

/-- The fallback pool of `MessageGenerator._generate_fallback`. -/
def fallback_replies (name : String) : List String :=
  ["Hey " ++ name ++ "! How\x27s your evening going? ðŸ˜Š",
   "Well hello there " ++ name ++ " ðŸ˜‰ What brings you to Tinder?",
   name ++ "! Love the vibe of your profile. What\x27s been the highlight of your week?",
   "Hi " ++ name ++ "! You seem interesting. Tell me something random about yourself?",
   "Hey " ++ name ++ ", fancy a chat? What\x27s your idea of a perfect Friday night?"]

/-- `MessageGenerator._generate_fallback`; `choice` models the index drawn by
`random.choice`. -/
def generate_fallback (name : String) (choice : Nat) : String :=
  (fallback_replies name).getD (choice % 5) ""

/-- Outcome of one `_call_claude` invocation: the completion text, or a raised
exception (network error, timeout, non-2xx status, malformed body). -/
inductive BackendResult where
  | ok (text : String)
  | err
deriving DecidableEq

/-- The retry loop of `MessageGenerator.generate_reply`
(`for attempt in range(3)` with a per-attempt `try`).  `backend n` is what the
n-th `_call_claude` invocation produces; the accumulated list records the
system prompt of every invocation made, in order.  A refusal triggers one
immediate retry with the flirty prompt; a second refusal falls back; an
exception anywhere in the attempt moves to the next attempt (keeping whichever
system prompt variable held last).  Exhaustion returns the unsanitized
fallback. -/
def genAttempts (backend : Nat → BackendResult) (name : String) (choice : Nat)
    (flirtyPrompt : String) : Nat → String → List String → String × List String
  | 0, _, trace => (generate_fallback name choice, trace)
  | attempts + 1, sysPrompt, trace =>
    let trace1 := trace ++ [sysPrompt]
    match backend trace.length with
    | .err => genAttempts backend name choice flirtyPrompt attempts sysPrompt trace1
    | .ok raw =>
      let reply := strTrim raw
      if is_refusal reply then
        let trace2 := trace1 ++ [flirtyPrompt]
        match backend trace1.length with
        | .err => genAttempts backend name choice flirtyPrompt attempts flirtyPrompt trace2
        | .ok raw2 =>
          let reply2 := strTrim raw2
          if is_refusal reply2 then (sanitize_reply (generate_fallback name choice), trace2)
          else (sanitize_reply reply2, trace2)
      else (sanitize_reply reply, trace1)

/-- `MessageGenerator.generate_reply`.  `date`/`time` stand for the strftime
values substituted by `_render_time_aware_prompt`; HTTP, usage-file writes and
sleeps are modelled by `backend` and elision.  Returns the reply together with
the system prompt of every backend call made. -/
def generate_reply (backend : Nat → BackendResult) (name bio : String)
    (chat_history : List Msg) (personality : String) (date time : String)
    (choice : Nat) : String × List String :=
  let system_prompt := renderPrompt (resolvedTemplate personality) date time
  let flirty_prompt := renderPrompt (systemPromptTemplate "flirty") date time
  let _messages := build_messages name bio chat_history
  genAttempts backend name choice flirty_prompt 3 system_prompt []

/-- The persisted usage counters of `CLAUDE_USAGE_FILE`
(`{total_tokens, by_model}`). -/
structure UsageRecord where
  total_tokens : Int
  by_model : String → Option Int

/-- `MessageGenerator._track_usage`: add to the global total and the per-model
counter, initializing an absent entry to 0 (file round-trip elided). -/
def track_usage (u : UsageRecord) (model : String) (tokens : Int) : UsageRecord :=
  { total_tokens := u.total_tokens + tokens,
    by_model := fun m =>
      if m = model then some ((u.by_model model).getD 0 + tokens) else u.by_model m }

/-- `DataManager.has_replied_to`:
`self.replied_messages.get(match_id) == message_time`. -/
def has_replied_to (replied : String → Option String)
    (match_id message_time : String) : Bool :=
  replied match_id == some message_time

/-- `DataManager.has_ever_replied_to`: `match_id in self.replied_messages`. -/
def has_ever_replied_to (replied : String → Option String) (match_id : String) : Bool :=
  (replied match_id).isSome

/-- `DataManager.mark_replied`: upsert of the replied dict (file write elided). -/
def mark_replied (replied : String → Option String)
    (match_id message_time : String) : String → Option String :=
  fun m => if m = match_id then some message_time else replied m

/-- `DataManager.is_rejected`: `match_id in self.rejected_matches`. -/
def is_rejected (rejected : List String) (match_id : String) : Bool :=
  decide (match_id ∈ rejected)

/-- The conversation cache of `DataManager`, a dict keyed by match id. -/
abbrev ConvCache := List (String × List Msg)

/-- Python dict update `self.conversation_cache[match_id] = messages`. -/
def cacheInsert (cache : ConvCache) (match_id : String) (messages : List Msg) : ConvCache :=
  if cache.any (fun p => p.1 = match_id) then
    cache.map (fun p => if p.1 = match_id then (match_id, messages) else p)
  else cache ++ [(match_id, messages)]

/-- `sorted(self.conversation_cache.keys())`. -/
def sortedKeys (cache : ConvCache) : List String :=
  (cache.map Prod.fst).insertionSort (· ≤ ·)

/-- `DataManager.cache_conversation`: insert, then when the cache exceeds 100
entries delete the 20 smallest keys before persisting (file write elided). -/
def cache_conversation (cache : ConvCache) (match_id : String)
    (messages : List Msg) : ConvCache :=
  let cache1 := cacheInsert cache match_id messages
  if 100 < cache1.length then
    let oldest := (sortedKeys cache1).take 20
    cache1.filter (fun p => decide (p.1 ∉ oldest))
  else cache1

/-- One match as returned by the Conversation Source
(`api_client.get_matches`). -/
structure MatchThread where
  match_id : String
  name : String
  bio : String
  messages : List Msg
deriving DecidableEq

/-- Collaborators and configuration consumed by
`MessageHandler.process_new_messages`: the auto-approve flag, the configured
personality, the Reply Generator and the Message Sink
(`self.generator.generate_reply` and `self._send_reply`). -/
structure PipelineEnv where
  auto_approve : Bool
  personality : String
  gen : String → String → List Msg → String → String
  sink : String → String → Bool

/-- Observable state of one pipeline pass: the `processed_messages` ledger (an
insertion-ordered set of `match_id ++ "_" ++ timestamp` ids), the match ids
passed to the Reply Generator, and every send attempt with its sink result. -/
structure PassResult where
  processed_messages : List String
  genCalls : List String
  sends : List (String × String × Bool)
deriving DecidableEq

/-- Loop body of `process_new_messages` for a single match: skip when there are
no messages, select the newest `role == "user"` message, skip when its id is
already in the ledger, generate a reply, send it when auto-approve is enabled,
and mark the id processed regardless of the sink result. -/
def processMatch (env : PipelineEnv) (st : PassResult) (m : MatchThread) : PassResult :=
  if m.messages.isEmpty then st
  else
    match (m.messages.filter (fun x => x.role == "user")).getLast? with
    | none => st
    | some last_user_msg =>
      let msg_id := m.match_id ++ "_" ++ last_user_msg.timestamp
      if msg_id ∈ st.processed_messages then st
      else
        let bot_reply := env.gen m.name m.bio m.messages env.personality
        let st1 : PassResult := { st with genCalls := st.genCalls ++ [m.match_id] }
        let st2 : PassResult :=
          if env.auto_approve then
            { st1 with
              sends := st1.sends ++ [(m.match_id, bot_reply, env.sink m.match_id bot_reply)] }
          else st1
        { st2 with processed_messages := st2.processed_messages ++ [msg_id] }

/-- `MessageHandler.process_new_messages`: one pipeline pass over the fetched
match list starting from ledger `processed0` (logging, websocket emission,
sleeps and file writes elided; the per-match exception handler is vacuous in
the pure model). -/
def process_new_messages (env : PipelineEnv) (matchList : List MatchThread)
    (processed0 : List String) : PassResult :=
  matchList.foldl (processMatch env) ⟨processed0, [], []⟩


/-! ### Concrete fixtures used by closed theorems and witnesses -/

/-- A single-conversation match list: `C1` with one inbound message
`{content: "hey!", timestamp: "T1"}`. -/
def annThread : MatchThread := ⟨"C1", "Ann", "", [⟨"user", "hey!", "T1"⟩]⟩

/-- Pipeline environment with auto-approve on and a sink that always succeeds. -/
def okSinkEnv : PipelineEnv :=
  ⟨true, "default", fun _ _ _ _ => "nice to meet you", fun _ _ => true⟩

/-- Pipeline environment with auto-approve on and a sink that always fails. -/
def failSinkEnv : PipelineEnv :=
  ⟨true, "default", fun _ _ _ _ => "nice to meet you", fun _ _ => false⟩

/-- Backend stub that always returns the stage-direction-only completion. -/
def starBackend : Nat → BackendResult := fun _ => .ok "*hug*"

/-- Backend stub whose every call raises. -/
def raisingBackend : Nat → BackendResult := fun _ => .err

/-- Backend stub: refusal on the first call, a normal completion afterwards. -/
def refusalThenOkBackend : Nat → BackendResult :=
  fun n => if n = 0 then .ok "I am an AI program." else .ok "Hey there"

/-- A four-turn history whose newest turn is outbound and mentions a photo. -/
def photoHistory : List Msg :=
  [⟨"user", "hi", "T1"⟩, ⟨"assistant", "hello", "T2"⟩,
   ⟨"user", "ok", "T3"⟩, ⟨"assistant", "look at this photo", "T4"⟩]

/-! ### Helper theorems for the sanitizer embedding -/

theorem spanSplit_length {l r : List Char} (h : spanSplit l = some r) :
    r.length < l.length := by
  unfold spanSplit at h
  by_cases ht : l.takeWhile (fun c => c ≠ '*') = []
  · rw [if_pos ht] at h; cases h
  · rw [if_neg ht] at h
    rcases hd : l.dropWhile (fun c => c ≠ '*') with _ | ⟨c, rest⟩
    · rw [hd] at h; cases h
    · rw [hd] at h
      have hr : rest = r := by injection h
      subst hr
      have h1 : (c :: rest).length ≤ l.length := by
        rw [← hd]; exact (List.dropWhile_suffix _).length_le
      simp only [List.length_cons] at h1
      omega

theorem stripActionsF_congr : ∀ (f1 f2 : Nat) (l : List Char),
    l.length ≤ f1 → l.length ≤ f2 → stripActionsF f1 l = stripActionsF f2 l := by
  intro f1
  induction f1 with
  | zero =>
    intro f2 l h1 _
    have : l = [] := List.length_eq_zero.mp (Nat.le_zero.mp h1)
    subst this
    cases f2 <;> rfl
  | succ f ih =>
    intro f2 l h1 h2
    rcases l with _ | ⟨c, rest⟩
    · cases f2 <;> rfl
    · rcases f2 with _ | g
      · simp at h2
      · simp only [List.length_cons, Nat.add_le_add_iff_right] at h1 h2
        simp only [stripActionsF]
        have e1 : stripActionsF f rest = stripActionsF g rest := ih g rest h1 h2
        rcases hs : spanSplit rest with _ | rest2
        · simp [e1]
        · have hlt := spanSplit_length hs
          have e2 : stripActionsF f rest2 = stripActionsF g rest2 :=
            ih g rest2 (Nat.le_trans (Nat.le_of_lt hlt) h1)
              (Nat.le_trans (Nat.le_of_lt hlt) h2)
          simp [e1, e2]

theorem stripActions_nil : stripActions [] = [] := rfl

theorem stripActions_cons (c : Char) (rest : List Char) :
    stripActions (c :: rest) =
      if c = '*' then
        match spanSplit rest with
        | some rest2 => stripActions rest2
        | none => c :: stripActions rest
      else c :: stripActions rest := by
  show stripActionsF (rest.length + 1) (c :: rest) = _
  simp only [stripActionsF, stripActions]
  rcases hs : spanSplit rest with _ | rest2
  · rfl
  · have hlt := spanSplit_length hs
    have e2 : stripActionsF rest.length rest2 = stripActionsF rest2.length rest2 :=
      stripActionsF_congr _ _ _ (Nat.le_of_lt hlt) (Nat.le_refl _)
    simp [e2]

/-! ### Claim theorems -/

/-- C5: after `mark_replied c t`, `has_replied_to c t'` is true exactly when
`t'` equals `t`; marking the same pair twice leaves `has_replied_to c t` true. -/
theorem C5_ledger_exact_match (replied : String → Option String) (c t t' : String) :
    (has_replied_to (mark_replied replied c t) c t' = true ↔ t' = t) ∧
    has_replied_to (mark_replied (mark_replied replied c t) c t) c t = true := by
  constructor
  · show ((if c = c then some t else replied c) == some t') = true ↔ t' = t
    rw [if_pos rfl, beq_iff_eq, Option.some_inj]
    exact eq_comm
  · show ((if c = c then some t else mark_replied replied c t c) == some t) = true
    rw [if_pos rfl, beq_iff_eq]

/-- C8: two successive `record("model-a", 10)` and `record("model-a", 5)` calls
add exactly 15 to the `model-a` counter (an absent entry counting as 0) and to
the global total, from any prior usage state. -/
theorem C8_usage_accumulation (u : UsageRecord) :
    (track_usage (track_usage u "model-a" 10) "model-a" 5).by_model "model-a" =
      some ((u.by_model "model-a").getD 0 + 15) ∧
    (track_usage (track_usage u "model-a" 10) "model-a" 5).total_tokens =
      u.total_tokens + 15 := by
  constructor
  · simp [track_usage, Int.add_assoc]
  · show u.total_tokens + 10 + 5 = u.total_tokens + 15
    omega

/-- C2: for the one-conversation list `[annThread]` with auto-approve on and an
always-successful sink, one pass produces exactly one send for `C1` and records
the id `C1_T1` (the pair `C1 -> T1`) in the ledger; a second pass over the
unchanged list produces zero sends and zero generator calls. -/
theorem C2_scenario_single_send_then_idempotent :
    (process_new_messages okSinkEnv [annThread] []).sends =
      [("C1", "nice to meet you", true)] ∧
    (process_new_messages okSinkEnv [annThread] []).processed_messages = ["C1_T1"] ∧
    (process_new_messages okSinkEnv [annThread]
        (process_new_messages okSinkEnv [annThread] []).processed_messages).sends = [] ∧
    (process_new_messages okSinkEnv [annThread]
        (process_new_messages okSinkEnv [annThread] []).processed_messages).genCalls = [] := by
  decide

/-- C1 counterexample: with auto-approve on and a sink that returns false, the
pass still changes the ledger (adds `C1_T1`), and the next pass neither
generates a reply nor attempts a send for that conversation — the claim that
the entry is unchanged and the message is retried fails. -/
theorem C1_counterexample_failed_send_marks_processed :
    (process_new_messages failSinkEnv [annThread] []).sends =
      [("C1", "nice to meet you", false)] ∧
    (process_new_messages failSinkEnv [annThread] []).processed_messages = ["C1_T1"] ∧
    ["C1_T1"] ≠ ([] : List String) ∧
    (process_new_messages failSinkEnv [annThread]
        (process_new_messages failSinkEnv [annThread] []).processed_messages).genCalls = [] ∧
    (process_new_messages failSinkEnv [annThread]
        (process_new_messages failSinkEnv [annThread] []).processed_messages).sends = [] := by
  decide

/-- C1 amended: when the sink returns false for a fresh conversation, the pass
records the failed attempt but nevertheless appends the message id to the
ledger, so the next pass makes no generator call and no send attempt for it. -/
theorem C1_amended_failed_send_not_retried (env : PipelineEnv) (m : MatchThread)
    (processed0 : List String) (last_user_msg : Msg)
    (hau : env.auto_approve = true)
    (hsink : ∀ mid text, env.sink mid text = false)
    (hlast : (m.messages.filter (fun x => x.role == "user")).getLast? = some last_user_msg)
    (hfresh : (m.match_id ++ "_" ++ last_user_msg.timestamp) ∉ processed0) :
    (process_new_messages env [m] processed0).processed_messages =
      processed0 ++ [m.match_id ++ "_" ++ last_user_msg.timestamp] ∧
    (process_new_messages env [m] processed0).sends =
      [(m.match_id, env.gen m.name m.bio m.messages env.personality, false)] ∧
    (process_new_messages env [m]
        (process_new_messages env [m] processed0).processed_messages).genCalls = [] ∧
    (process_new_messages env [m]
        (process_new_messages env [m] processed0).processed_messages).sends = [] := by
  have hne : m.messages.isEmpty = false := by
    rcases hm : m.messages with _ | _
    · rw [hm] at hlast; simp at hlast
    · rfl
  simp [process_new_messages, processMatch, hne, hlast, hfresh, hau, hsink]

/-- C1 amended witness at the concrete fixture. -/
theorem C1_amended_failed_send_not_retried_witness :
    (process_new_messages failSinkEnv [annThread] []).processed_messages =
      [] ++ ["C1" ++ "_" ++ "T1"] ∧
    (process_new_messages failSinkEnv [annThread] []).sends =
      [("C1", failSinkEnv.gen "Ann" "" annThread.messages failSinkEnv.personality, false)] ∧
    (process_new_messages failSinkEnv [annThread]
        (process_new_messages failSinkEnv [annThread] []).processed_messages).genCalls = [] ∧
    (process_new_messages failSinkEnv [annThread]
        (process_new_messages failSinkEnv [annThread] []).processed_messages).sends = [] :=
  C1_amended_failed_send_not_retried failSinkEnv annThread [] ⟨"user", "hey!", "T1"⟩
    rfl (fun _ _ => rfl) (by decide) (by decide)

/-- C4 counterexample: `C1` is a member of the RejectedSet according to
`DataManager.is_rejected`, yet the pipeline pass invokes the Reply Generator
for it — `process_new_messages` never consults the RejectedSet. -/
theorem C4_counterexample_rejected_still_generated :
    is_rejected ["C1"] "C1" = true ∧
    (process_new_messages okSinkEnv [annThread] []).genCalls = ["C1"] := by
  decide

/-- C4 amended: `is_rejected` does report RejectedSet membership, but the
pipeline never consults it: any rejected conversation with a fresh newest
inbound message is still passed to the Reply Generator. -/
theorem C4_amended_rejected_not_consulted (rejected : List String) (env : PipelineEnv)
    (m : MatchThread) (processed0 : List String) (last_user_msg : Msg)
    (_hrej : is_rejected rejected m.match_id = true)
    (hlast : (m.messages.filter (fun x => x.role == "user")).getLast? = some last_user_msg)
    (hfresh : (m.match_id ++ "_" ++ last_user_msg.timestamp) ∉ processed0) :
    (process_new_messages env [m] processed0).genCalls = [m.match_id] := by
  have hne : m.messages.isEmpty = false := by
    rcases hm : m.messages with _ | _
    · rw [hm] at hlast; simp at hlast
    · rfl
  by_cases hau : env.auto_approve <;>
    simp [process_new_messages, processMatch, hne, hlast, hfresh, hau]

/-- C4 amended witness at the concrete fixture. -/
theorem C4_amended_rejected_not_consulted_witness :
    (process_new_messages okSinkEnv [annThread] []).genCalls = ["C1"] :=
  C4_amended_rejected_not_consulted ["C1"] okSinkEnv annThread [] ⟨"user", "hey!", "T1"⟩
    (by decide) (by decide) (by decide)

/-- Appending to a nonempty right operand never yields the empty string. -/
theorem strAppend_ne_empty (a b : String) (hb : b ≠ "") : a ++ b ≠ "" := by
  intro h
  apply hb
  have h0 := congrArg String.data h
  rw [String.data_append] at h0
  have h2 := (List.append_eq_nil.mp h0).2
  cases b with
  | mk data => cases h2; rfl

/-- Every entry of the fallback pool is nonempty, whatever the name and the
random choice. -/
theorem generate_fallback_ne_empty (name : String) (choice : Nat) :
    generate_fallback name choice ≠ "" := by
  have h5 : choice % 5 = 0 ∨ choice % 5 = 1 ∨ choice % 5 = 2 ∨ choice % 5 = 3 ∨
      choice % 5 = 4 := by omega
  unfold generate_fallback fallback_replies
  rcases h5 with h | h | h | h | h <;> rw [h] <;>
    simp only [List.getD_cons_zero, List.getD_cons_succ] <;>
    first
      | exact strAppend_ne_empty _ _ (strAppend_ne_empty _ _ (by decide))
      | exact strAppend_ne_empty _ _ (by decide)

/-- C3 counterexample: a backend returning the non-refusal completion `"*hug*"`
makes `generate_reply` return the empty string — sanitization erases the whole
accepted reply, so the non-empty guarantee fails. -/
theorem C3_counterexample_empty_reply :
    is_refusal "*hug*" = false ∧
    (generate_reply starBackend "Ann" "" [] "default" "D" "T" 0).1 = "" := by
  decide

/-- C3 amended: `generate_reply` is total (never propagates an exception) and,
when every backend call raises, returns the fallback reply, which is nonempty
for every input; but an accepted completion may sanitize to the empty string. -/
theorem C3_amended_raising_backend_fallback (name bio : String)
    (chat_history : List Msg) (personality date time : String) (choice : Nat) :
    (generate_reply raisingBackend name bio chat_history personality date time choice).1 =
      generate_fallback name choice ∧
    (generate_reply raisingBackend name bio chat_history personality date time choice).1 ≠ "" := by
  have hrun : (generate_reply raisingBackend name bio chat_history
      personality date time choice).1 = generate_fallback name choice := by
    simp [generate_reply, genAttempts, raisingBackend]
  exact ⟨hrun, hrun ▸ generate_fallback_ne_empty name choice⟩

/-- C6: when the first backend call returns a refusal-matching completion and
the second a non-refusal one, `generate_reply` makes exactly two backend calls —
the second with the alternate (flirty) profile prompt substituted — and returns
the sanitized second completion, never the refusal text. -/
theorem C6_refusal_recovery (backend : Nat → BackendResult) (name bio : String)
    (chat_history : List Msg) (personality date time : String) (choice : Nat)
    (r s : String)
    (h0 : backend 0 = .ok r) (hr : is_refusal (strTrim r) = true)
    (h1 : backend 1 = .ok s) (hs : is_refusal (strTrim s) = false) :
    generate_reply backend name bio chat_history personality date time choice =
      (sanitize_reply (strTrim s),
       [renderPrompt (resolvedTemplate personality) date time,
        renderPrompt (systemPromptTemplate "flirty") date time]) := by
  simp [generate_reply, genAttempts, h0, h1, hr, hs]

/-- C6 witness at the concrete refusal-then-ok backend. -/
theorem C6_refusal_recovery_witness :
    generate_reply refusalThenOkBackend "Ann" "" [] "casual" "D" "T" 0 =
      (sanitize_reply (strTrim "Hey there"),
       [renderPrompt (resolvedTemplate "casual") "D" "T",
        renderPrompt (systemPromptTemplate "flirty") "D" "T"]) :=
  C6_refusal_recovery refusalThenOkBackend "Ann" "" [] "casual" "D" "T" 0
    "I am an AI program." "Hey there" rfl (by decide) rfl (by decide)

/-- C9 counterexample: in `photoHistory` the most recent inbound (`"user"`)
turn is `"ok"`, which contains no media keyword, yet the media-reaction
instruction is appended because the code inspects the final turn of the
constructed list (here an outbound turn mentioning a photo). -/
theorem C9_counterexample_outbound_turn_triggers :
    (photoHistory.filter (fun x => x.role == "user")).getLast? =
      some ⟨"user", "ok", "T3"⟩ ∧
    hasMediaWord "ok" = false ∧
    build_messages "Ann" "" photoHistory = photoHistory ++ [mediaMsg "Ann"] := by
  decide

/-- `getLast?` is preserved by dropping fewer elements than the length. -/
theorem getLast?_drop_of_lt {α : Type} {l : List α} {n : Nat} (h : n < l.length) :
    (l.drop n).getLast? = l.getLast? := by
  have hne : l.drop n ≠ [] := by
    intro hnil
    have hl := congrArg List.length hnil
    rw [List.length_drop] at hl
    simp only [List.length_nil] at hl
    omega
  conv_rhs => rw [← List.take_append_drop n l]
  rw [List.getLast?_append_of_ne_nil _ hne]

/-- C9 amended: for histories longer than 2 turns (so no opener is
synthesized), the media instruction is appended iff the newest turn of the
truncated history — regardless of its role — contains a media keyword. -/
theorem C9_amended_media_checks_final_turn (name bio : String) (h : List Msg)
    (m : Msg) (hlen : 2 < h.length) (hlast : h.getLast? = some m) :
    (build_messages name bio h = h.drop (h.length - 10) ++ [mediaMsg name] ↔
      hasMediaWord m.content = true) ∧
    (hasMediaWord m.content = false →
      build_messages name bio h = h.drop (h.length - 10)) := by
  have hlen2 : ¬ ((h.drop (h.length - 10)).length ≤ 2) := by
    rw [List.length_drop]; omega
  have hlt : h.length - 10 < h.length := by omega
  have hlast2 : (h.drop (h.length - 10)).getLast? = some m := by
    rw [getLast?_drop_of_lt hlt, hlast]
  unfold build_messages
  simp only [if_neg hlen2, hlast2]
  by_cases hm : hasMediaWord m.content
  · simp [hm]
  · simp only [Bool.not_eq_true] at hm
    simp [hm]

/-- C9 amended witness at the concrete fixture. -/
theorem C9_amended_media_checks_final_turn_witness :
    (build_messages "Ann" "" photoHistory =
        photoHistory.drop (photoHistory.length - 10) ++ [mediaMsg "Ann"] ↔
      hasMediaWord (Msg.mk "assistant" "look at this photo" "T4").content = true) ∧
    (hasMediaWord (Msg.mk "assistant" "look at this photo" "T4").content = false →
      build_messages "Ann" "" photoHistory =
        photoHistory.drop (photoHistory.length - 10)) :=
  C9_amended_media_checks_final_turn "Ann" "" photoHistory
    ⟨"assistant", "look at this photo", "T4"⟩ (by decide) (by decide)

/-! ### Structure of the sanitizer output (for C7) -/

/-- Every word produced by `splitWordsAux` is nonempty and whitespace-free,
provided the accumulated partial word is whitespace-free. -/
theorem splitWordsAux_words : ∀ (l acc : List Char),
    (∀ c ∈ acc, pyIsSpace c = false) →
    ∀ w ∈ splitWordsAux l acc, w ≠ [] ∧ ∀ c ∈ w, pyIsSpace c = false := by
  intro l
  induction l with
  | nil =>
    intro acc hacc w hw
    unfold splitWordsAux at hw
    by_cases h : acc = []
    · simp [h] at hw
    · rw [if_neg h] at hw
      simp only [List.mem_singleton] at hw
      subst hw
      refine ⟨by simpa using h, ?_⟩
      intro c hc
      exact hacc c (List.mem_reverse.mp hc)
  | cons c rest ih =>
    intro acc hacc w hw
    unfold splitWordsAux at hw
    by_cases hsp : pyIsSpace c = true
    · rw [if_pos hsp] at hw
      by_cases h : acc = []
      · rw [if_pos h] at hw
        exact ih [] (by simp) w hw
      · rw [if_neg h] at hw
        rcases List.mem_cons.mp hw with hw1 | hw1
        · subst hw1
          refine ⟨by simpa using h, ?_⟩
          intro c2 hc2
          exact hacc c2 (List.mem_reverse.mp hc2)
        · exact ih [] (by simp) w hw1
    · rw [if_neg hsp] at hw
      refine ih (c :: acc) ?_ w hw
      intro x hx
      rcases List.mem_cons.mp hx with h1 | h1
      · subst h1; simpa using hsp
      · exact hacc x h1

/-- Every word produced by Python `text.split()` is nonempty and
whitespace-free. -/
theorem splitWords_words (l : List Char) :
    ∀ w ∈ splitWords l, w ≠ [] ∧ ∀ c ∈ w, pyIsSpace c = false :=
  splitWordsAux_words l [] (by simp)

/-- `' '.join` of nonempty words is nonempty. -/
theorem joinSpace_ne_nil (ws : List (List Char)) (hne : ws ≠ [])
    (hall : ∀ w ∈ ws, w ≠ []) : joinSpace ws ≠ [] := by
  rcases ws with _ | ⟨w, ws2⟩
  · exact absurd rfl hne
  · rcases ws2 with _ | ⟨w2, ws3⟩
    · simpa [joinSpace] using hall w (by simp)
    · show w ++ ' ' :: joinSpace (w2 :: ws3) ≠ []
      simp

/-- The first character of `' '.join(words)` is not whitespace. -/
theorem joinSpace_head_not_space (ws : List (List Char))
    (hall : ∀ w ∈ ws, w ≠ [] ∧ ∀ c ∈ w, pyIsSpace c = false) :
    ∀ c ∈ (joinSpace ws).head?, pyIsSpace c = false := by
  rcases ws with _ | ⟨w, ws2⟩
  · simp [joinSpace]
  · have hw := hall w (by simp)
    rcases hwc : w with _ | ⟨a, w1⟩
    · exact absurd hwc hw.1
    · have ha : pyIsSpace a = false := hw.2 a (by rw [hwc]; simp)
      rcases ws2 with _ | ⟨w2, ws3⟩
      · intro c hc
        simp only [joinSpace, hwc, List.head?_cons, Option.mem_def,
          Option.some.injEq] at hc
        subst hc; exact ha
      · intro c hc
        show pyIsSpace c = false
        have hhd : (joinSpace ((a :: w1) :: w2 :: ws3)).head? = some a := by
          show ((a :: w1) ++ ' ' :: joinSpace (w2 :: ws3)).head? = some a
          simp
        rw [hhd] at hc
        simp only [Option.mem_def, Option.some.injEq] at hc
        subst hc; exact ha

/-- The last character of `' '.join(words)` is not whitespace. -/
theorem joinSpace_last_not_space : ∀ (ws : List (List Char)),
    (∀ w ∈ ws, w ≠ [] ∧ ∀ c ∈ w, pyIsSpace c = false) →
    ∀ c ∈ (joinSpace ws).getLast?, pyIsSpace c = false := by
  intro ws
  induction ws with
  | nil => simp [joinSpace]
  | cons w ws2 ih =>
    intro hall c hc
    rcases ws2 with _ | ⟨w2, ws3⟩
    · have hw := hall w (by simp)
      exact hw.2 c (List.mem_of_mem_getLast? hc)
    · have hJ : joinSpace (w2 :: ws3) ≠ [] :=
        joinSpace_ne_nil _ (by simp) (fun w3 hw3 => (hall w3 (by simp [hw3])).1)
      have hsplit : joinSpace (w :: w2 :: ws3) = (w ++ [' ']) ++ joinSpace (w2 :: ws3) := by
        show w ++ ' ' :: joinSpace (w2 :: ws3) = _
        rw [List.append_cons]
      rw [hsplit, List.getLast?_append_of_ne_nil _ hJ] at hc
      exact ih (fun w3 hw3 => hall w3 (by simp [hw3])) c hc

/-- A whitespace-free list has no two adjacent whitespace characters. -/
theorem chain_of_all_not_space (w : List Char)
    (hw : ∀ c ∈ w, pyIsSpace c = false) :
    List.Chain' (fun a b => ¬(pyIsSpace a = true ∧ pyIsSpace b = true)) w := by
  induction w with
  | nil => simp
  | cons a w1 ih =>
    rw [List.chain'_cons']
    constructor
    · intro y _ hcon
      have ha := hw a (by simp)
      rw [ha] at hcon
      simp at hcon
    · exact ih (fun c hc => hw c (by simp [hc]))

/-- `' '.join(words)` of nonempty whitespace-free words never has two adjacent
whitespace characters. -/
theorem chain_joinSpace : ∀ (ws : List (List Char)),
    (∀ w ∈ ws, w ≠ [] ∧ ∀ c ∈ w, pyIsSpace c = false) →
    List.Chain' (fun a b => ¬(pyIsSpace a = true ∧ pyIsSpace b = true)) (joinSpace ws) := by
  intro ws
  induction ws with
  | nil => simp [joinSpace]
  | cons w ws2 ih =>
    intro hall
    rcases ws2 with _ | ⟨w2, ws3⟩
    · exact chain_of_all_not_space w (hall w (by simp)).2
    · show List.Chain' _ (w ++ ' ' :: joinSpace (w2 :: ws3))
      rw [List.chain'_append]
      refine ⟨chain_of_all_not_space w (hall w (by simp)).2, ?_, ?_⟩
      · rw [List.chain'_cons']
        constructor
        · intro y hy hcon
          have hns := joinSpace_head_not_space (w2 :: ws3)
            (fun w3 hw3 => hall w3 (by simp [hw3])) y hy
          rw [hns] at hcon
          simp at hcon
        · exact ih (fun w3 hw3 => hall w3 (by simp [hw3]))
      · intro x hx y _ hcon
        have hxw : x ∈ w := List.mem_of_mem_getLast? hx
        have := (hall w (by simp)).2 x hxw
        rw [this] at hcon
        simp at hcon

/-- Every character of `' '.join(words)` is a word character or the single
separator space. -/
theorem mem_joinSpace : ∀ (ws : List (List Char)) (c : Char),
    c ∈ joinSpace ws → c = ' ' ∨ ∃ w, w ∈ ws ∧ c ∈ w := by
  intro ws
  induction ws with
  | nil => simp [joinSpace]
  | cons w ws2 ih =>
    intro c hc
    rcases ws2 with _ | ⟨w2, ws3⟩
    · exact Or.inr ⟨w, by simp, hc⟩
    · have hc2 : c ∈ w ++ ' ' :: joinSpace (w2 :: ws3) := hc
      rcases List.mem_append.mp hc2 with h1 | h1
      · exact Or.inr ⟨w, by simp, h1⟩
      · rcases List.mem_cons.mp h1 with h2 | h2
        · exact Or.inl h2
        · rcases ih c h2 with h3 | ⟨w3, hw3, hcw3⟩
          · exact Or.inl h3
          · exact Or.inr ⟨w3, by simp [hw3], hcw3⟩

/-- `trimLeft` is the identity when the first character is not whitespace. -/
theorem trimLeft_of_head_not_space (l : List Char)
    (h : ∀ c ∈ l.head?, pyIsSpace c = false) : trimLeft l = l := by
  rcases l with _ | ⟨a, l1⟩
  · rfl
  · have ha := h a (by simp)
    simp [trimLeft, List.dropWhile_cons, ha]

/-- `trimRight` is the identity when the last character is not whitespace. -/
theorem trimRight_of_last_not_space (l : List Char)
    (h : ∀ c ∈ l.getLast?, pyIsSpace c = false) : trimRight l = l := by
  have hrev : l.reverse.dropWhile pyIsSpace = l.reverse := by
    rcases hr : l.reverse with _ | ⟨a, r1⟩
    · rfl
    · have ha : pyIsSpace a = false := by
        apply h
        rw [← List.head?_reverse, hr]
        simp
      simp [List.dropWhile_cons, ha]
  unfold trimRight
  rw [hrev, List.reverse_reverse]

/-- Unfolding of `ensurePunct` on an empty list. -/
theorem ensurePunct_none {l : List Char} (h : l.getLast? = none) :
    ensurePunct l = l := by
  unfold ensurePunct
  rw [h]

/-- Unfolding of `ensurePunct` on a nonempty list. -/
theorem ensurePunct_some {l : List Char} {c : Char} (h : l.getLast? = some c) :
    ensurePunct l = if c = '.' ∨ c = '!' ∨ c = '?' then l else l ++ ['.'] := by
  unfold ensurePunct
  rw [h]

/-- If `ensurePunct` produces a nonempty list, its last character is terminal
punctuation. -/
theorem ensurePunct_last (l : List Char) (hne : ensurePunct l ≠ []) :
    ∃ c, (ensurePunct l).getLast? = some c ∧ (c = '.' ∨ c = '!' ∨ c = '?') := by
  rcases hlast : l.getLast? with _ | c
  · rw [ensurePunct_none hlast] at hne
    exact absurd (List.getLast?_eq_none_iff.mp hlast) hne
  · rw [ensurePunct_some hlast]
    by_cases hp : c = '.' ∨ c = '!' ∨ c = '?'
    · rw [if_pos hp]
      exact ⟨c, hlast, hp⟩
    · rw [if_neg hp]
      refine ⟨'.', ?_, Or.inl rfl⟩
      rw [List.getLast?_append_of_ne_nil _ (by simp)]
      rfl

/-- The final `strip()` of the sanitizer is the identity: the join of the
split already has no surrounding whitespace, and the appended period is not
whitespace either. -/
theorem pyStrip_ensurePunct_joinSpace (ws : List (List Char))
    (hws : ∀ w ∈ ws, w ≠ [] ∧ ∀ c ∈ w, pyIsSpace c = false) :
    pyStrip (ensurePunct (joinSpace ws)) = ensurePunct (joinSpace ws) := by
  by_cases hW : joinSpace ws = []
  · rw [hW]; rfl
  · have hhead := joinSpace_head_not_space ws hws
    rcases hlast : (joinSpace ws).getLast? with _ | c
    · exact absurd (List.getLast?_eq_none_iff.mp hlast) hW
    · have hlastns : pyIsSpace c = false :=
        joinSpace_last_not_space ws hws c (by rw [hlast]; rfl)
      rw [ensurePunct_some hlast]
      by_cases hp : c = '.' ∨ c = '!' ∨ c = '?'
      · rw [if_pos hp]
        unfold pyStrip
        rw [trimLeft_of_head_not_space _ hhead,
          trimRight_of_last_not_space _ ?_]
        intro d hd
        rw [hlast] at hd
        simp only [Option.mem_def, Option.some.injEq] at hd
        subst hd
        exact hlastns
      · rw [if_neg hp]
        have hhead2 : ∀ d ∈ (joinSpace ws ++ ['.']).head?, pyIsSpace d = false := by
          intro d hd
          rcases hWc : joinSpace ws with _ | ⟨a, W1⟩
          · exact absurd hWc hW
          · rw [hWc] at hd
            simp only [List.cons_append, List.head?_cons, Option.mem_def,
              Option.some.injEq] at hd
            subst hd
            apply hhead
            rw [hWc]
            simp
        have hlast2 : (joinSpace ws ++ ['.']).getLast? = some '.' := by
          rw [List.getLast?_append_of_ne_nil _ (by simp)]
          rfl
        unfold pyStrip
        rw [trimLeft_of_head_not_space _ hhead2,
          trimRight_of_last_not_space _ ?_]
        intro d hd
        rw [hlast2] at hd
        simp only [Option.mem_def, Option.some.injEq] at hd
        subst hd
        decide

/-- `takeWhile` walks through a prefix whose elements all satisfy the
predicate. -/
theorem takeWhile_append_all {α : Type} {p : α → Bool} : ∀ (a b : List α),
    (∀ x ∈ a, p x = true) → (a ++ b).takeWhile p = a ++ b.takeWhile p := by
  intro a
  induction a with
  | nil => simp
  | cons x a1 ih =>
    intro b ha
    have hx := ha x (by simp)
    simp [List.takeWhile_cons, hx, ih b (fun y hy => ha y (by simp [hy]))]

/-- `dropWhile` discards a prefix whose elements all satisfy the predicate. -/
theorem dropWhile_append_all {α : Type} {p : α → Bool} : ∀ (a b : List α),
    (∀ x ∈ a, p x = true) → (a ++ b).dropWhile p = b.dropWhile p := by
  intro a
  induction a with
  | nil => simp
  | cons x a1 ih =>
    intro b ha
    have hx := ha x (by simp)
    simp [List.dropWhile_cons, hx, ih b (fun y hy => ha y (by simp [hy]))]

/-- `spanSplit` consumes exactly a nonempty asterisk-free span followed by the
closing asterisk. -/
theorem spanSplit_exact (span post : List Char) (hspan : '*' ∉ span)
    (hne : span ≠ []) : spanSplit (span ++ '*' :: post) = some post := by
  have hall : ∀ x ∈ span, (fun c : Char => decide (c ≠ '*')) x = true := by
    intro x hx
    simp only [decide_eq_true_eq]
    intro he
    subst he
    exact hspan hx
  unfold spanSplit
  rw [takeWhile_append_all _ _ hall, dropWhile_append_all _ _ hall]
  simp [List.takeWhile_cons, List.dropWhile_cons, hne]

/-- Leftmost span removal: `re.sub` removes an asterisk-delimited span after
any asterisk-free prefix and continues on the suffix. -/
theorem stripActions_span (pre span post : List Char)
    (hpre : '*' ∉ pre) (hspan : '*' ∉ span) (hne : span ≠ []) :
    stripActions (pre ++ '*' :: span ++ '*' :: post) = pre ++ stripActions post := by
  induction pre with
  | nil =>
    simp only [List.nil_append, List.cons_append]
    rw [stripActions_cons, if_pos rfl, spanSplit_exact span post hspan hne]
  | cons a pre1 ih =>
    have ha : ¬(a = '*') := fun he => hpre (he ▸ List.mem_cons_self a pre1)
    have hpre1 : '*' ∉ pre1 := fun hx => hpre (List.mem_cons_of_mem a hx)
    simp only [List.cons_append]
    rw [stripActions_cons, if_neg ha]
    have ih2 := ih hpre1
    simp only [List.cons_append] at ih2 ⊢
    rw [ih2]

/-- C7: the sanitizer strips asterisk-delimited stage directions, never leaves
two adjacent whitespace characters (all remaining whitespace is the single
space separator), ends every nonempty output with terminal punctuation, and in
particular maps `"Hey *winks* how are you"` to `"Hey how are you."`. -/
theorem C7_sanitize_properties :
    sanitize_reply "Hey *winks* how are you" = "Hey how are you." ∧
    (∀ (pre span post : List Char), '*' ∉ pre → '*' ∉ span → span ≠ [] →
      stripActions (pre ++ '*' :: span ++ '*' :: post) = pre ++ stripActions post) ∧
    (∀ s : String, sanitize_reply s ≠ "" →
      ∃ c, (sanitize_reply s).data.getLast? = some c ∧
        (c = '.' ∨ c = '!' ∨ c = '?')) ∧
    (∀ s : String,
      List.Chain' (fun a b => ¬(pyIsSpace a = true ∧ pyIsSpace b = true))
        (sanitize_reply s).data ∧
      ∀ c ∈ (sanitize_reply s).data, pyIsSpace c = true → c = ' ') := by
  refine ⟨by decide, stripActions_span, ?_, ?_⟩
  · intro s hne
    have hws := splitWords_words (stripActions s.data)
    have hstrip := pyStrip_ensurePunct_joinSpace _ hws
    have hdata : (sanitize_reply s).data =
        ensurePunct (joinSpace (splitWords (stripActions s.data))) := hstrip
    rw [hdata]
    apply ensurePunct_last
    intro h0
    apply hne
    show String.mk (pyStrip (ensurePunct (joinSpace (splitWords (stripActions s.data))))) = ""
    rw [hstrip, h0]
  · intro s
    have hws := splitWords_words (stripActions s.data)
    have hstrip := pyStrip_ensurePunct_joinSpace _ hws
    have hdata : (sanitize_reply s).data =
        ensurePunct (joinSpace (splitWords (stripActions s.data))) := hstrip
    rw [hdata]
    constructor
    · rcases hlast : (joinSpace (splitWords (stripActions s.data))).getLast? with _ | c
      · rw [ensurePunct_none hlast]
        exact chain_joinSpace _ hws
      · rw [ensurePunct_some hlast]
        by_cases hp : c = '.' ∨ c = '!' ∨ c = '?'
        · rw [if_pos hp]
          exact chain_joinSpace _ hws
        · rw [if_neg hp]
          rw [List.chain'_append]
          refine ⟨chain_joinSpace _ hws, by simp, ?_⟩
          intro x hx y _ hcon
          have := joinSpace_last_not_space _ hws x hx
          rw [this] at hcon
          simp at hcon
    · intro c hc hspace
      have hc2 : c ∈ joinSpace (splitWords (stripActions s.data)) ∨ c = '.' := by
        rcases hlast : (joinSpace (splitWords (stripActions s.data))).getLast? with _ | d
        · rw [ensurePunct_none hlast] at hc
          exact Or.inl hc
        · rw [ensurePunct_some hlast] at hc
          by_cases hp : d = '.' ∨ d = '!' ∨ d = '?'
          · rw [if_pos hp] at hc
            exact Or.inl hc
          · rw [if_neg hp] at hc
            rcases List.mem_append.mp hc with h1 | h1
            · exact Or.inl h1
            · simp at h1
              exact Or.inr h1
      rcases hc2 with h1 | h1
      · rcases mem_joinSpace _ c h1 with h2 | ⟨w, hw, hcw⟩
        · exact h2
        · exact absurd hspace (by rw [(hws w hw).2 c hcw]; simp)
      · subst h1
        exact absurd hspace (by decide)

/-- C7 witness: the span-removal and terminal-punctuation components applied
at concrete inputs. -/
theorem C7_sanitize_properties_witness :
    stripActions ("ab".data ++ '*' :: "w".data ++ '*' :: "cd".data) =
      "ab".data ++ stripActions "cd".data ∧
    ∃ c, (sanitize_reply "hi").data.getLast? = some c ∧
      (c = '.' ∨ c = '!' ∨ c = '?') :=
  ⟨C7_sanitize_properties.2.1 "ab".data "w".data "cd".data
      (by decide) (by decide) (by decide),
   C7_sanitize_properties.2.2.1 "hi" (by decide)⟩

/-! ### Cache eviction (for C10) -/

/-- Unfolding of `cache_conversation`. -/
theorem cache_conversation_eq (cache : ConvCache) (k : String) (v : List Msg) :
    cache_conversation cache k v =
      if 100 < (cacheInsert cache k v).length then
        (cacheInsert cache k v).filter
          (fun p => decide (p.1 ∉ (sortedKeys (cacheInsert cache k v)).take 20))
      else cacheInsert cache k v := rfl

/-- A dict update leaves the key list unchanged, or appends the fresh key. -/
theorem cacheInsert_keys (cache : ConvCache) (k : String) (v : List Msg) :
    (cacheInsert cache k v).map Prod.fst = cache.map Prod.fst ∨
    ((cacheInsert cache k v).map Prod.fst = cache.map Prod.fst ++ [k] ∧
      k ∉ cache.map Prod.fst) := by
  by_cases h : cache.any (fun p => p.1 = k)
  · left
    simp only [cacheInsert, if_pos h, List.map_map]
    apply List.map_congr_left
    intro p _
    by_cases hp : p.1 = k
    · simp [Function.comp, hp]
    · simp [Function.comp, hp]
  · right
    constructor
    · simp [cacheInsert, if_neg h]
    · intro hk
      apply h
      rcases List.mem_map.mp hk with ⟨p, hp, he⟩
      exact List.any_eq_true.mpr ⟨p, hp, by simp [he]⟩

/-- A dict update grows the entry count by at most one. -/
theorem cacheInsert_length (cache : ConvCache) (k : String) (v : List Msg) :
    (cacheInsert cache k v).length = cache.length ∨
    (cacheInsert cache k v).length = cache.length + 1 := by
  by_cases h : cache.any (fun p => p.1 = k)
  · left; simp [cacheInsert, h]
  · right; simp [cacheInsert, h]

/-- Splitting a filter by a predicate and its negation accounts for every
element. -/
theorem length_filter_add_length_filter_not {α : Type} (l : List α) (p : α → Bool) :
    (l.filter p).length + (l.filter (fun a => !(p a))).length = l.length := by
  induction l with
  | nil => rfl
  | cons a l1 ih =>
    by_cases ha : p a = true
    · simp [List.filter_cons, ha]
      omega
    · have ha2 : p a = false := by simpa using ha
      simp [List.filter_cons, ha2]
      omega

/-- Filtering entries by a key predicate commutes with projecting the keys. -/
theorem map_fst_filter_key (l : ConvCache) (q : String → Bool) :
    (l.filter (fun p => q p.1)).map Prod.fst = (l.map Prod.fst).filter q := by
  induction l with
  | nil => rfl
  | cons a l1 ih =>
    by_cases ha : q a.1 = true
    · simp [List.filter_cons, ha, ih]
    · have ha2 : q a.1 = false := by simpa using ha
      simp [List.filter_cons, ha2, ih]

/-- On duplicate-free keys, filtering by membership in a duplicate-free subset
keeps exactly that subset. -/
theorem length_filter_mem_of_nodup (keys evict : List String)
    (hkd : keys.Nodup) (hed : evict.Nodup) (hsub : ∀ x ∈ evict, x ∈ keys) :
    (keys.filter (fun x => decide (x ∈ evict))).length = evict.length := by
  have hfd : (keys.filter (fun x => decide (x ∈ evict))).Nodup := hkd.filter _
  have hperm : List.Perm (keys.filter (fun x => decide (x ∈ evict))) evict := by
    apply (List.perm_ext_iff_of_nodup hfd hed).mpr
    intro a
    constructor
    · intro h
      have := (List.mem_filter.mp h).2
      simpa using this
    · intro h
      exact List.mem_filter.mpr ⟨hsub a h, by simpa⟩
  exact hperm.length_eq

/-- The eviction step: on a 101-entry cache with duplicate-free keys, deleting
the 20 smallest keys removes exactly 20 entries, and every surviving entry has
a key no smaller than every evicted key. -/
theorem evict_step (c1 : ConvCache) (hnd1 : (c1.map Prod.fst).Nodup)
    (h101 : c1.length = 101) :
    (c1.filter (fun p => decide (p.1 ∉ (sortedKeys c1).take 20))).length =
      c1.length - 20 ∧
    ∀ p ∈ c1.filter (fun p => decide (p.1 ∉ (sortedKeys c1).take 20)),
      ∀ k ∈ (sortedKeys c1).take 20, k ≤ p.1 := by
  have hperm : List.Perm (sortedKeys c1) (c1.map Prod.fst) :=
    List.perm_insertionSort _ _
  have hsortnd : (sortedKeys c1).Nodup := hperm.nodup_iff.mpr hnd1
  have htknd : ((sortedKeys c1).take 20).Nodup :=
    hsortnd.sublist (List.take_sublist _ _)
  have hsub : ∀ x ∈ (sortedKeys c1).take 20, x ∈ c1.map Prod.fst := by
    intro x hx
    exact hperm.mem_iff.mp ((List.take_sublist _ _).subset hx)
  have hlen_sorted : (sortedKeys c1).length = c1.length := by
    rw [hperm.length_eq, List.length_map]
  have htk20 : ((sortedKeys c1).take 20).length = 20 := by
    rw [List.length_take, hlen_sorted, h101]
    decide
  have hcnt : (c1.filter (fun p => decide (p.1 ∈ (sortedKeys c1).take 20))).length = 20 := by
    have h1 : (c1.filter (fun p => decide (p.1 ∈ (sortedKeys c1).take 20))).length
        = ((c1.map Prod.fst).filter
            (fun x => decide (x ∈ (sortedKeys c1).take 20))).length := by
      rw [← map_fst_filter_key, List.length_map]
    rw [h1, length_filter_mem_of_nodup _ _ hnd1 htknd hsub, htk20]
  constructor
  · have hsum := length_filter_add_length_filter_not c1
      (fun p => decide (p.1 ∈ (sortedKeys c1).take 20))
    have hpred : (fun p : String × List Msg =>
        decide (p.1 ∉ (sortedKeys c1).take 20))
        = (fun p : String × List Msg =>
            !(decide (p.1 ∈ (sortedKeys c1).take 20))) := by
      funext p
      exact decide_not
    rw [hpred]
    omega
  · intro p hp k hk
    have hp2 := List.mem_filter.mp hp
    have hnot : p.1 ∉ (sortedKeys c1).take 20 := by simpa using hp2.2
    have hpk : p.1 ∈ sortedKeys c1 :=
      hperm.mem_iff.mpr (List.mem_map_of_mem Prod.fst hp2.1)
    have hsorted : (sortedKeys c1).Sorted (· ≤ ·) := List.sorted_insertionSort _ _
    have hsplit := List.take_append_drop 20 (sortedKeys c1)
    rw [← hsplit] at hsorted
    have hbound := (List.pairwise_append.mp hsorted).2.2
    have hdrop : p.1 ∈ (sortedKeys c1).drop 20 := by
      have hpk2 : p.1 ∈ (sortedKeys c1).take 20 ++ (sortedKeys c1).drop 20 := by
        rw [hsplit]; exact hpk
      rcases List.mem_append.mp hpk2 with h | h
      · exact absurd h hnot
      · exact h
    exact hbound k hk p.1 hdrop

/-- C10: starting from a cache of at most 100 conversations with
duplicate-free keys, `cache_conversation` leaves at most 100 entries; when the
insertion pushes the cache over 100 entries, exactly the 20 smallest keys are
evicted (20 entries disappear and every survivor`s key dominates every evicted
key). -/
theorem C10_cache_bounded (cache : ConvCache) (match_id : String)
    (messages : List Msg) (hnd : (cache.map Prod.fst).Nodup)
    (hle : cache.length ≤ 100) :
    (cache_conversation cache match_id messages).length ≤ 100 ∧
    (100 < (cacheInsert cache match_id messages).length →
      (cache_conversation cache match_id messages).length =
        (cacheInsert cache match_id messages).length - 20 ∧
      ∀ p ∈ cache_conversation cache match_id messages,
        ∀ k ∈ (sortedKeys (cacheInsert cache match_id messages)).take 20,
          k ≤ p.1) := by
  have hnd1 : ((cacheInsert cache match_id messages).map Prod.fst).Nodup := by
    rcases cacheInsert_keys cache match_id messages with h | ⟨h, hk⟩
    · rw [h]; exact hnd
    · rw [h]
      simp [List.nodup_append, hnd, hk]
  have hlen1 : (cacheInsert cache match_id messages).length ≤ 101 := by
    rcases cacheInsert_length cache match_id messages with h | h <;> omega
  rw [cache_conversation_eq]
  by_cases hbig : 100 < (cacheInsert cache match_id messages).length
  · have h101 : (cacheInsert cache match_id messages).length = 101 := by omega
    have hev := evict_step (cacheInsert cache match_id messages) hnd1 h101
    have hev1 := hev.1
    rw [if_pos hbig]
    exact ⟨by omega, fun _ => ⟨hev.1, hev.2⟩⟩
  · rw [if_neg hbig]
    exact ⟨by omega, fun h => absurd h hbig⟩

/-- C10 witness at the empty cache. -/
theorem C10_cache_bounded_witness :
    (cache_conversation [] "C1" []).length ≤ 100 ∧
    (100 < (cacheInsert [] "C1" []).length →
      (cache_conversation [] "C1" []).length =
        (cacheInsert [] "C1" []).length - 20 ∧
      ∀ p ∈ cache_conversation [] "C1" [],
        ∀ k ∈ (sortedKeys (cacheInsert [] "C1" [])).take 20, k ≤ p.1) :=
  C10_cache_bounded [] "C1" [] (by decide) (by decide)
